import Mathlib

/-!
# DPW-Agent: shallow embedding and verification

A shallow embedding of the DPW-Agent multi-agent drone controller
(JavaScript) into Lean 4, covering:

* the A2A transport (`createTaskResult`, the `/tasks` route of
  `AgentServer`, and `AgentClient.submitTask`),
* the Planner's validation layer (`_validatePlan`, `_validateReflection`),
* the Executor's `execute` loop,
* the Retriever's `retrieve` / `_postProcess` pipeline,
* the Orchestrator's bounded ReAct loop and session-history handling.

JavaScript values flowing through the validation layers are modelled by
`JsValue` (the JSON fragment: the values produced by `generateJSON` and
carried in A2A task payloads).  JS numbers are modelled as rationals
(`ℚ`); JSON cannot encode `NaN` or infinities, so every number reaching
the validators is finite.  External effects (the language model, the
vector store, the MCP tool endpoint, the network, wall-clock time) are
modelled as oracle parameters; all control flow around them is
translated from the source.
-/

/-- A JSON-shaped JavaScript value (the output domain of
`GeminiProvider.generateJSON` and the payload domain of A2A tasks). -/
inductive JsValue where
  | null
  | bool (b : Bool)
  | num (q : ℚ)
  | str (s : String)
  | arr (xs : List JsValue)
  | obj (fields : List (String × JsValue))
deriving Repr

namespace JsValue

/-- JS truthiness: `null`, `false`, `0` and `""` are falsy; every object
and array is truthy. -/
def truthy : JsValue → Bool
  | .null => false
  | .bool b => b
  | .num q => q != 0
  | .str s => s != ""
  | .arr _ => true
  | .obj _ => true

/-- `typeof v === 'object'` (true for objects, arrays and `null`). -/
def typeofObject : JsValue → Bool
  | .obj _ => true
  | .arr _ => true
  | .null => true
  | _ => false

/-- Optional-chained property access `v?.k`: `some` field value for an
object that carries the key, `none` (i.e. `undefined`) otherwise. -/
def getField : JsValue → String → Option JsValue
  | .obj fields, k => (fields.find? (fun f => f.1 == k)).map (·.2)
  | _, _ => none

/-- `String(v)` for primitives.  Rendering of numbers, arrays and plain
objects is abbreviated relative to the JS engine; no verified claim
depends on the rendering of non-string values, only on the fact that
the same conversion is applied on both sides of every membership
check. -/
def jsToString : JsValue → String
  | .null => "null"
  | .bool true => "true"
  | .bool false => "false"
  | .num q => toString q.num ++ (if q.den == 1 then "" else "/" ++ toString q.den)
  | .str s => s
  | .arr _ => "[array]"
  | .obj _ => "[object Object]"

/-- `v || default` on an optionally-present field (`undefined` is
falsy). -/
def orDefault (v : Option JsValue) (d : JsValue) : JsValue :=
  match v with
  | some w => if w.truthy then w else d
  | none => d

end JsValue

/-! ## Planner: validation layer (src/agents/planner/PlannerAgent.js) -/

namespace PlannerAgent

/-- A retained plan/reflection step after validation. -/
structure PlanStep where
  tool : String
  args : JsValue
  description : String
deriving Repr

/-- A validated plan, as built by `_validatePlan`. -/
structure Plan where
  reasoning : JsValue
  needsClarification : Bool
  clarificationQuestion : JsValue
  missingLocations : List String
  steps : List PlanStep
deriving Repr

/-- A validated reflection, as built by `_validateReflection`. -/
structure Reflection where
  observation : JsValue
  reasoning : JsValue
  goalAchieved : Bool
  confidence : ℚ
  nextSteps : List PlanStep
  summary : JsValue
deriving Repr

/-- The allowed tool-name set derived from `availableTools`:
`(Array.isArray(availableTools) ? availableTools : []).map(t => t?.name).filter(Boolean).map(String)`. -/
def allowedToolNames (availableTools : JsValue) : List String :=
  match availableTools with
  | .arr ts =>
      ts.filterMap (fun t =>
        match t.getField "name" with
        | some v => if v.truthy then some v.jsToString else none
        | none => none)
  | _ => []

/-- `step?.tool ? String(step.tool) : ''`. -/
def stepToolName (step : JsValue) : String :=
  match step.getField "tool" with
  | some v => if v.truthy then v.jsToString else ""
  | none => ""

/-- `(step.args && typeof step.args === 'object') ? step.args : {}`. -/
def stepArgs (step : JsValue) : JsValue :=
  match step.getField "args" with
  | some a => if a.truthy && a.typeofObject then a else .obj []
  | none => .obj []

/-- `step.description ? String(step.description) : ''`. -/
def stepDescription (step : JsValue) : String :=
  match step.getField "description" with
  | some d => if d.truthy then d.jsToString else ""
  | none => ""

/-- Validation of one raw step against the allowed set (the loop body
shared by `_validatePlan` and `_validateReflection`): the tool name is
stringified and checked against the allowlist; non-object `args` are
replaced by `{}`; the description is stringified or defaulted. -/
def validStep (allowed : List String) (step : JsValue) : Option PlanStep :=
  if stepToolName step = "" ∨ stepToolName step ∉ allowed then
    none
  else
    some
      { tool := stepToolName step
        args := stepArgs step
        description := stepDescription step }

/-- `PlannerAgent._validatePlan(result, availableTools)`: fails when no
tool names can be derived from `availableTools`; otherwise retains only
steps whose tool passes `validStep`, and normalizes
`missingLocations` to trimmed non-empty strings. -/
def validatePlan (result availableTools : JsValue) : Except String Plan :=
  if (allowedToolNames availableTools).isEmpty then
    .error "No availableTools provided; cannot generate a valid plan"
  else
    .ok
      { reasoning := JsValue.orDefault (result.getField "reasoning") (.str "")
        needsClarification := (result.getField "needsClarification").elim false JsValue.truthy
        clarificationQuestion := JsValue.orDefault (result.getField "clarificationQuestion") .null
        missingLocations :=
          match result.getField "missingLocations" with
          | some (.arr locs) =>
              (locs.filterMap (fun l =>
                match l with
                | .str s => if s ≠ "" then some s.trim else none
                | _ => none))
          | _ => []
        steps :=
          match result.getField "steps" with
          | some (.arr rawSteps) => rawSteps.filterMap (validStep (allowedToolNames availableTools))
          | _ => [] }

/-- `PlannerAgent._validateReflection(result, availableTools)`: clamps
`confidence` into `[0,1]` (defaulting to `0.2` for non-numbers) and
fills `nextSteps` through the tool allowlist only when the goal was not
achieved. -/
def validateReflection (result availableTools : JsValue) : Reflection :=
  { observation := JsValue.orDefault (result.getField "observation") (.str "")
    reasoning := JsValue.orDefault (result.getField "reasoning") (.str "")
    goalAchieved := (result.getField "goalAchieved").elim false JsValue.truthy
    confidence :=
      match result.getField "confidence" with
      | some (.num q) => min 1 (max 0 q)
      | _ => 1/5
    nextSteps :=
      if !(result.getField "goalAchieved").elim false JsValue.truthy then
        match result.getField "nextSteps" with
        | some (.arr rawSteps) => rawSteps.filterMap (validStep (allowedToolNames availableTools))
        | _ => []
      else []
    summary := JsValue.orDefault (result.getField "summary") (.str "") }

end PlannerAgent

namespace PlannerAgent

/-- The `args` of a validated step are always object-typed and truthy
(the original object, or the substituted `{}`). -/
theorem stepArgs_object (step : JsValue) :
    (stepArgs step).truthy = true ∧ (stepArgs step).typeofObject = true := by
  unfold stepArgs
  split
  · split
    · next hc => simpa [Bool.and_eq_true] using hc
    · exact ⟨rfl, rfl⟩
  · exact ⟨rfl, rfl⟩

/-- A step retained by `validStep` names a tool from the allowed set. -/
theorem validStep_mem_allowed {allowed : List String} {step : JsValue} {ps : PlanStep}
    (h : validStep allowed step = some ps) : ps.tool ∈ allowed := by
  unfold validStep at h
  split at h
  · exact Option.noConfusion h
  · next hcond =>
    push_neg at hcond
    injection h with h
    subst h
    exact hcond.2

/-- A step retained by `validStep` carries object-typed, truthy `args`. -/
theorem validStep_args_object {allowed : List String} {step : JsValue} {ps : PlanStep}
    (h : validStep allowed step = some ps) :
    ps.args.truthy = true ∧ ps.args.typeofObject = true := by
  unfold validStep at h
  split at h
  · exact Option.noConfusion h
  · injection h with h
    subst h
    exact stepArgs_object step

/-- The steps list of a successfully validated plan is the allowlist
filtering of the raw steps array. -/
theorem validatePlan_steps {result availableTools : JsValue} {plan : Plan}
    (h : validatePlan result availableTools = .ok plan) :
    plan.steps =
      (match result.getField "steps" with
        | some (.arr rawSteps) => rawSteps
        | _ => []).filterMap (validStep (allowedToolNames availableTools)) := by
  unfold validatePlan at h
  split at h
  · exact Except.noConfusion h
  · injection h with h
    subst h
    cases h2 : result.getField "steps" with
    | none => simp [h2]
    | some v => cases v <;> simp [h2]

end PlannerAgent

/-- C1: every tool name retained in a validated plan's `steps` or a
validated reflection's `nextSteps` belongs to the tool-name set derived
from `availableTools`; and when that set is empty, plan validation
fails with an error instead of returning a plan. -/
theorem planner_tools_within_catalog (result availableTools : JsValue) :
    (∀ plan, PlannerAgent.validatePlan result availableTools = .ok plan →
      ∀ s ∈ plan.steps, s.tool ∈ PlannerAgent.allowedToolNames availableTools)
    ∧ (∀ s ∈ (PlannerAgent.validateReflection result availableTools).nextSteps,
        s.tool ∈ PlannerAgent.allowedToolNames availableTools)
    ∧ (PlannerAgent.allowedToolNames availableTools = [] →
        PlannerAgent.validatePlan result availableTools =
          .error "No availableTools provided; cannot generate a valid plan") := by
  refine ⟨?_, ?_, ?_⟩
  · intro plan h s hs
    rw [PlannerAgent.validatePlan_steps h] at hs
    obtain ⟨raw, -, hraw⟩ := List.mem_filterMap.mp hs
    exact PlannerAgent.validStep_mem_allowed hraw
  · intro s hs
    unfold PlannerAgent.validateReflection at hs
    simp only at hs
    revert hs
    split
    · split
      · intro hs
        obtain ⟨raw, -, hraw⟩ := List.mem_filterMap.mp hs
        exact PlannerAgent.validStep_mem_allowed hraw
      · intro hs
        exact absurd hs (List.not_mem_nil s)
    · intro hs
      exact absurd hs (List.not_mem_nil s)
  · intro h
    unfold PlannerAgent.validatePlan
    rw [h]
    rfl

/-- C1 witness: at a concrete catalog `[drone.take_off]` the retained
step's tool is in the allowed set, a reflection's retained remedial
step likewise, and the empty catalog makes validation fail. -/
theorem planner_tools_within_catalog_witness :
    "drone.take_off" ∈
      PlannerAgent.allowedToolNames (.arr [.obj [("name", .str "drone.take_off")]])
    ∧ (PlannerAgent.allowedToolNames (.arr []) = [] →
        PlannerAgent.validatePlan (.obj []) (.arr []) =
          .error "No availableTools provided; cannot generate a valid plan") := by
  constructor
  · exact
      (planner_tools_within_catalog
          (.obj [("steps", .arr [.obj [("tool", .str "drone.take_off")]])])
          (.arr [.obj [("name", .str "drone.take_off")]])).1
        { reasoning := .str ""
          needsClarification := false
          clarificationQuestion := .null
          missingLocations := []
          steps := [{ tool := "drone.take_off", args := .obj [], description := "" }] }
        rfl
        { tool := "drone.take_off", args := .obj [], description := "" }
        (by simp)
  · exact fun _ => (planner_tools_within_catalog (.obj []) (.arr [])).2.2 rfl

/-! ## A2A transport (src/a2a/types.js, AgentServer.js, AgentClient.js) -/

namespace A2A

/-- An A2A Task Result as built by `createTaskResult`.  The `metadata`
object (wall-clock timestamps and durations) is outside the model. -/
structure TaskResult where
  taskId : String
  success : Bool
  output : Option JsValue
  error : Option JsValue
deriving Repr

/-- `createTaskResult(taskId, success, data)`: on success the payload
goes to `output` and `error` is `undefined`; on failure `output` is
`undefined` and `error` is `data?.message || data`. -/
def createTaskResult (taskId : String) (success : Bool) (data : JsValue) : TaskResult :=
  { taskId := taskId
    success := success
    output := if success then some data else none
    error :=
      if success then none
      else some (JsValue.orDefault (data.getField "message") data) }

/-- An A2A task as consumed by `AgentServer._handleTask`. -/
structure Task where
  id : String
  skill : String
  input : JsValue

/-- `AgentServer._handleTask`: dispatch to the handler registered for
`task.skill`; an unregistered skill raises `Unknown skill: …` (outside
the inner try); a handler exception is caught and becomes a failed
Task Result. -/
def handleTask (skillHandlers : String → Option (JsValue → Except String JsValue))
    (task : Task) : Except String TaskResult :=
  match skillHandlers task.skill with
  | none => .error ("Unknown skill: " ++ task.skill)
  | some handler =>
      match handler task.input with
      | .ok output => .ok (createTaskResult task.id true output)
      | .error e => .ok (createTaskResult task.id false (.str e))

/-- The `POST /tasks` route: `_handleTask`'s result with HTTP 200, or
HTTP 500 with a failed Task Result body when `_handleTask` threw. -/
def postTasksRoute (skillHandlers : String → Option (JsValue → Except String JsValue))
    (task : Task) : Nat × TaskResult :=
  match handleTask skillHandlers task with
  | .ok result => (200, result)
  | .error e => (500, createTaskResult task.id false (.str e))

/-- Outcome of the `fetch` to another agent's `/tasks` endpoint. -/
inductive FetchOutcome where
  | netError (message : String)
  | response (status : Nat) (body : TaskResult)

/-- `response.ok`: HTTP status in the 200–299 range. -/
def responseOk (status : Nat) : Bool :=
  200 ≤ status && status ≤ 299

/-- `AgentClient.submitTask` after task construction, as a function of
the fetch outcome: a network error propagates as a thrown exception; a
non-OK response raises `Task submission failed: …`; an OK response's
JSON body is returned as-is — including bodies with `success = false`,
which are only logged. -/
def submitTask (fetched : FetchOutcome) : Except String TaskResult :=
  match fetched with
  | .netError m => .error m
  | .response status body =>
      if responseOk status then .ok body
      else .error ("Task submission failed: " ++ toString status)

end A2A

/-- C10: a Task Result built by `createTaskResult` carries at most one
payload field: on success the `error` field is undefined, on failure
the `output` field is undefined, for every task id and data value. -/
theorem task_result_payload_exclusive (taskId : String) (data : JsValue) :
    (A2A.createTaskResult taskId true data).error = none
    ∧ (A2A.createTaskResult taskId false data).output = none :=
  ⟨rfl, rfl⟩

/-- C3 counterexample: at a network failure (`fetch` rejects with
message `fetch failed`) and at a non-OK HTTP 500 response,
`AgentClient.submitTask` raises an exception instead of handing the
caller a Task Result with `success = false` — refuting the claim for
two of its three failure classes. -/
theorem submit_task_throws_counterexample :
    A2A.submitTask (.netError "fetch failed") = .error "fetch failed"
    ∧ A2A.submitTask (.response 500 (A2A.createTaskResult "t1" false (.str "boom")))
        = .error "Task submission failed: 500" :=
  ⟨rfl, rfl⟩

/-- C3 (amended): only a handler exception reaches the caller as a
failed Task Result — the server catches it and answers HTTP 200 with
`success = false` and the error string, which `submitTask` returns.
An unregistered skill makes the server answer HTTP 500 whose body is a
failed Task Result with the distinctive `Unknown skill:` error, but
`submitTask` converts that non-OK response into a thrown exception;
network failures and any other non-OK response likewise surface to the
caller as thrown exceptions, not failed Task Results. -/
theorem a2a_failure_semantics
    (handlers : String → Option (JsValue → Except String JsValue)) (task : A2A.Task) :
    (∀ handler e, handlers task.skill = some handler → handler task.input = .error e →
      A2A.postTasksRoute handlers task = (200, A2A.createTaskResult task.id false (.str e))
      ∧ A2A.submitTask (.response 200 (A2A.createTaskResult task.id false (.str e)))
          = .ok (A2A.createTaskResult task.id false (.str e))
      ∧ (A2A.createTaskResult task.id false (.str e)).success = false
      ∧ (A2A.createTaskResult task.id false (.str e)).error = some (.str e))
    ∧ (handlers task.skill = none →
      A2A.postTasksRoute handlers task =
        (500, A2A.createTaskResult task.id false (.str ("Unknown skill: " ++ task.skill)))
      ∧ A2A.submitTask
          (.response 500
            (A2A.createTaskResult task.id false (.str ("Unknown skill: " ++ task.skill))))
          = .error "Task submission failed: 500")
    ∧ (∀ m, A2A.submitTask (.netError m) = .error m)
    ∧ (∀ status body, A2A.responseOk status = false →
      A2A.submitTask (.response status body)
        = .error ("Task submission failed: " ++ toString status)) := by
  refine ⟨?_, ?_, fun _ => rfl, ?_⟩
  · intro handler e hh he
    unfold A2A.postTasksRoute A2A.handleTask
    simp only [hh, he]
    exact ⟨by trivial, by trivial, by trivial, by trivial⟩
  · intro hh
    unfold A2A.postTasksRoute A2A.handleTask
    simp only [hh]
    exact ⟨by trivial, by trivial⟩
  · intro status body h
    simp [A2A.submitTask, h]

/-- C3 (amended) witness: with a `plan` handler that throws `boom`, a
`plan` task comes back as HTTP 200 carrying a failed Task Result, while
a task for the unregistered skill `missing` is answered with HTTP 500
and the `Unknown skill: missing` body; `submitTask` propagates a
concrete network failure as an exception. -/
theorem a2a_failure_semantics_witness :
    A2A.postTasksRoute
      (fun s => if s = "plan" then some (fun _ => Except.error "boom") else none)
      { id := "t1", skill := "plan", input := .obj [] }
      = (200, A2A.createTaskResult "t1" false (.str "boom"))
    ∧ A2A.postTasksRoute
      (fun s => if s = "plan" then some (fun _ => Except.error "boom") else none)
      { id := "t2", skill := "missing", input := .obj [] }
      = (500, A2A.createTaskResult "t2" false (.str "Unknown skill: missing"))
    ∧ A2A.submitTask (.netError "socket hang up") = .error "socket hang up" := by
  refine ⟨?_, ?_, ?_⟩
  · exact ((a2a_failure_semantics
      (fun s => if s = "plan" then some (fun _ => Except.error "boom") else none)
      { id := "t1", skill := "plan", input := .obj [] }).1 _ "boom" rfl rfl).1
  · exact ((a2a_failure_semantics
      (fun s => if s = "plan" then some (fun _ => Except.error "boom") else none)
      { id := "t2", skill := "missing", input := .obj [] }).2.1 rfl).1
  · exact (a2a_failure_semantics (fun _ => none)
      { id := "t0", skill := "x", input := .obj [] }).2.2.1 "socket hang up"

/-- C5: if reflection validation reports `goalAchieved = true`, the
validated `nextSteps` list is empty whatever the raw input contained. -/
theorem reflection_goal_achieved_no_next_steps (result availableTools : JsValue)
    (h : (PlannerAgent.validateReflection result availableTools).goalAchieved = true) :
    (PlannerAgent.validateReflection result availableTools).nextSteps = [] := by
  unfold PlannerAgent.validateReflection at h ⊢
  simp only at h ⊢
  rw [h]
  simp

/-- C5 witness: a raw reflection asserting `goalAchieved` while
supplying a non-empty `nextSteps` array is validated to an empty
`nextSteps` list. -/
theorem reflection_goal_achieved_no_next_steps_witness :
    (PlannerAgent.validateReflection
        (.obj [("goalAchieved", .bool true),
               ("nextSteps", .arr [.obj [("tool", .str "drone.land")]])])
        (.arr [.obj [("name", .str "drone.land")]])).goalAchieved = true
    ∧ (PlannerAgent.validateReflection
        (.obj [("goalAchieved", .bool true),
               ("nextSteps", .arr [.obj [("tool", .str "drone.land")]])])
        (.arr [.obj [("name", .str "drone.land")]])).nextSteps = [] :=
  ⟨rfl, reflection_goal_achieved_no_next_steps _ _ rfl⟩

/-- C6: the validated reflection's confidence always lies in `[0, 1]`:
numeric raw confidences are clamped, non-numeric ones default to
`0.2`.  (JSON cannot encode `NaN` or infinities, so the rational model
covers every value `generateJSON` can produce.) -/
theorem reflection_confidence_in_unit_interval (result availableTools : JsValue) :
    0 ≤ (PlannerAgent.validateReflection result availableTools).confidence
    ∧ (PlannerAgent.validateReflection result availableTools).confidence ≤ 1 := by
  unfold PlannerAgent.validateReflection
  simp only
  split
  · next q _ => exact ⟨le_min (by norm_num) (le_max_left 0 q), min_le_left 1 _⟩
  · norm_num

/-- C9 counterexample: a raw step whose tool is allowed but whose
`args` is the string `"oops"` (not an object) is *retained* with
`args = {}` — the validated plan has one step, not zero, so the claim
that such steps are dropped is false. -/
theorem plan_step_nonobject_args_counterexample :
    PlannerAgent.validatePlan
      (.obj [("steps", .arr [.obj [("tool", .str "drone.take_off"), ("args", .str "oops")]])])
      (.arr [.obj [("name", .str "drone.take_off")]])
    = .ok
        { reasoning := .str ""
          needsClarification := false
          clarificationQuestion := .null
          missingLocations := []
          steps := [{ tool := "drone.take_off", args := .obj [], description := "" }] } := by
  rfl

/-- C9 (amended): plan validation retains exactly the raw steps whose
stringified tool name is truthy and in the allowed set — `args` does
not affect retention; a retained step's `args` is the raw value when
that is a truthy object and the empty object `{}` otherwise, so every
retained step carries object-typed args. -/
theorem plan_steps_retention (result availableTools : JsValue) (plan : PlannerAgent.Plan)
    (h : PlannerAgent.validatePlan result availableTools = .ok plan) :
    plan.steps =
      (match result.getField "steps" with
        | some (.arr rawSteps) => rawSteps
        | _ => []).filterMap
          (PlannerAgent.validStep (PlannerAgent.allowedToolNames availableTools))
    ∧ ∀ s ∈ plan.steps,
        s.tool ∈ PlannerAgent.allowedToolNames availableTools
        ∧ s.args.truthy = true ∧ s.args.typeofObject = true := by
  refine ⟨PlannerAgent.validatePlan_steps h, ?_⟩
  intro s hs
  rw [PlannerAgent.validatePlan_steps h] at hs
  obtain ⟨raw, -, hraw⟩ := List.mem_filterMap.mp hs
  exact ⟨PlannerAgent.validStep_mem_allowed hraw, PlannerAgent.validStep_args_object hraw⟩

/-- C9 (amended) witness: on the counterexample input the retained
steps list is exactly the allowlist filtering of the raw array, with
the non-object args replaced by `{}`. -/
theorem plan_steps_retention_witness :
    PlannerAgent.validatePlan
      (.obj [("steps", .arr [.obj [("tool", .str "drone.take_off"), ("args", .str "x")]])])
      (.arr [.obj [("name", .str "drone.take_off")]])
    = .ok
        { reasoning := .str ""
          needsClarification := false
          clarificationQuestion := .null
          missingLocations := []
          steps := [{ tool := "drone.take_off", args := .obj [], description := "" }] }
    ∧ ({ reasoning := .str ""
         needsClarification := false
         clarificationQuestion := .null
         missingLocations := []
         steps := [{ tool := "drone.take_off", args := .obj [], description := "" }] }
          : PlannerAgent.Plan).steps =
        (match (JsValue.obj
            [("steps", .arr [.obj [("tool", .str "drone.take_off"), ("args", .str "x")]])]).getField
              "steps" with
          | some (.arr rawSteps) => rawSteps
          | _ => []).filterMap
            (PlannerAgent.validStep
              (PlannerAgent.allowedToolNames (.arr [.obj [("name", .str "drone.take_off")]]))) :=
  ⟨rfl,
    (plan_steps_retention
        (.obj [("steps", .arr [.obj [("tool", .str "drone.take_off"), ("args", .str "x")]])])
        (.arr [.obj [("name", .str "drone.take_off")]])
        { reasoning := .str ""
          needsClarification := false
          clarificationQuestion := .null
          missingLocations := []
          steps := [{ tool := "drone.take_off", args := .obj [], description := "" }] }
        rfl).1⟩

/-! ## Executor (src/agents/executor, `ExecutorAgent.execute`) -/

namespace ExecutorAgent

/-- A plan step as received by `execute` (`{tool, args, description}`,
all taken verbatim from the submitted plan). -/
structure Step where
  tool : JsValue
  args : JsValue
  description : JsValue
deriving Repr

/-- The per-step record pushed onto `results` (`step` is the 1-based
index `i + 1`). -/
structure StepResult where
  step : Nat
  tool : JsValue
  args : JsValue
  description : JsValue
  success : Bool
  result : Option JsValue
  error : Option String
  durationMs : Nat
deriving Repr

/-- The object returned by `execute`. -/
structure ExecuteResult where
  results : List StepResult
  allSuccess : Bool
  totalDurationMs : Nat
  completedSteps : Nat
  totalSteps : Nat
deriving Repr

/-- The `for` loop of `ExecutorAgent.execute`: `outcome i step` is the
oracle for `await this._executeStep(step)` at index `i` (`.ok` the
parsed MCP result, `.error` the thrown message — e.g.
`Unknown MCP tool: …` after the failed refresh, or a tool-invocation
error), and `dur i` the observed per-step duration.  Returns the
`results` list and the final `allSuccess` flag; on a failure with
`stopOnError` set the remaining steps are abandoned. -/
def executeSteps (outcome : Nat → Step → Except String JsValue) (dur : Nat → Nat)
    (stopOnError : Bool) : Nat → List Step → List StepResult × Bool
  | _, [] => ([], true)
  | i, s :: rest =>
    match outcome i s with
    | .ok v =>
        let r := executeSteps outcome dur stopOnError (i + 1) rest
        ({ step := i + 1, tool := s.tool, args := s.args, description := s.description,
           success := true, result := some v, error := none, durationMs := dur i } :: r.1,
         r.2)
    | .error e =>
        let entry : StepResult :=
          { step := i + 1, tool := s.tool, args := s.args, description := s.description,
            success := false, result := none, error := some e, durationMs := dur i }
        if stopOnError then ([entry], false)
        else
          let r := executeSteps outcome dur stopOnError (i + 1) rest
          (entry :: r.1, false)

/-- `ExecutorAgent.execute(steps, {stopOnError})`; the total wall-clock
duration is abstracted by `totalDur`. -/
def execute (outcome : Nat → Step → Except String JsValue) (dur : Nat → Nat)
    (totalDur : Nat) (steps : List Step) (stopOnError : Bool) : ExecuteResult :=
  { results := (executeSteps outcome dur stopOnError 0 steps).1
    allSuccess := (executeSteps outcome dur stopOnError 0 steps).2
    totalDurationMs := totalDur
    completedSteps :=
      ((executeSteps outcome dur stopOnError 0 steps).1.filter (·.success)).length
    totalSteps := steps.length }

/-- The loop never records more entries than there are steps. -/
theorem executeSteps_length_le (outcome : Nat → Step → Except String JsValue)
    (dur : Nat → Nat) (stopOnError : Bool) :
    ∀ (l : List Step) (i : Nat),
      (executeSteps outcome dur stopOnError i l).1.length ≤ l.length := by
  intro l
  induction l with
  | nil => intro i; simp [executeSteps]
  | cons s rest ih =>
    intro i
    simp only [executeSteps]
    split
    · simpa using ih (i + 1)
    · split
      · simp
      · simpa using ih (i + 1)

/-- The final `allSuccess` flag is `true` exactly when every recorded
entry succeeded. -/
theorem executeSteps_allSuccess (outcome : Nat → Step → Except String JsValue)
    (dur : Nat → Nat) (stopOnError : Bool) :
    ∀ (l : List Step) (i : Nat),
      (executeSteps outcome dur stopOnError i l).2 = true
        ↔ ∀ e ∈ (executeSteps outcome dur stopOnError i l).1, e.success = true := by
  intro l
  induction l with
  | nil => intro i; simp [executeSteps]
  | cons s rest ih =>
    intro i
    simp only [executeSteps]
    split
    · rw [ih (i + 1)]
      simp
    · split
      · simp
      · simp

/-- If every recorded entry succeeded, every step was attempted. -/
theorem executeSteps_all_success_length (outcome : Nat → Step → Except String JsValue)
    (dur : Nat → Nat) (stopOnError : Bool) :
    ∀ (l : List Step) (i : Nat),
      (∀ e ∈ (executeSteps outcome dur stopOnError i l).1, e.success = true) →
      (executeSteps outcome dur stopOnError i l).1.length = l.length := by
  intro l
  induction l with
  | nil => intro i _; simp [executeSteps]
  | cons s rest ih =>
    intro i
    simp only [executeSteps]
    split
    · intro h
      simp only [List.length_cons, List.length_cons]
      rw [ih (i + 1) (fun e he => h e (List.mem_cons_of_mem _ he))]
    · split
      · intro h
        exfalso
        simpa using h _ (List.mem_singleton.mpr rfl)
      · intro h
        exfalso
        simpa using h _ (List.mem_cons_self _ _)

/-- Under `stopOnError`, a failed entry is always the last one. -/
theorem executeSteps_stop_last (outcome : Nat → Step → Except String JsValue)
    (dur : Nat → Nat) :
    ∀ (l : List Step) (i j : Nat) (e : StepResult),
      (executeSteps outcome dur true i l).1.get? j = some e → e.success = false →
      j + 1 = (executeSteps outcome dur true i l).1.length := by
  intro l
  induction l with
  | nil => intro i j e h; simp [executeSteps] at h
  | cons s rest ih =>
    intro i j e h hf
    simp only [executeSteps] at h ⊢
    revert h
    split
    · cases j with
      | zero =>
        intro h
        simp only [List.get?_cons_zero, Option.some.injEq] at h
        rw [← h] at hf
        simp at hf
      | succ j =>
        intro h
        simp only [List.get?_cons_succ] at h
        have := ih (i + 1) j e h hf
        simp only [List.length_cons]
        omega
    · cases j with
      | zero =>
        intro _
        simp
      | succ j =>
        intro h
        simp at h

/-- Entry-by-entry correspondence between the recorded `results` and
the attempted prefix of `steps`. -/
theorem executeSteps_get (outcome : Nat → Step → Except String JsValue)
    (dur : Nat → Nat) (stopOnError : Bool) :
    ∀ (l : List Step) (i j : Nat) (e : StepResult),
      (executeSteps outcome dur stopOnError i l).1.get? j = some e →
      ∃ s, l.get? j = some s
        ∧ e.step = i + j + 1
        ∧ e.tool = s.tool ∧ e.args = s.args ∧ e.description = s.description
        ∧ e.durationMs = dur (i + j)
        ∧ (match outcome (i + j) s with
           | .ok v => e.success = true ∧ e.result = some v ∧ e.error = none
           | .error msg => e.success = false ∧ e.result = none ∧ e.error = some msg) := by
  intro l
  induction l with
  | nil => intro i j e h; simp [executeSteps] at h
  | cons s rest ih =>
    intro i j e h
    simp only [executeSteps] at h
    revert h
    split
    · next v hov =>
      cases j with
      | zero =>
        intro h
        simp only [List.get?_cons_zero, Option.some.injEq] at h
        refine ⟨s, by simp, ?_⟩
        rw [← h]
        simp only [Nat.add_zero]
        rw [hov]
        simp
      | succ j =>
        intro h
        simp only [List.get?_cons_succ] at h
        obtain ⟨t, ht, hstep, h2, h3, h4, hdur, hm⟩ := ih (i + 1) j e h
        refine ⟨t, by simpa using ht, by omega, h2, h3, h4, ?_, ?_⟩
        · rw [show i + (j + 1) = i + 1 + j from by omega]
          exact hdur
        · rw [show i + (j + 1) = i + 1 + j from by omega]
          exact hm
    · next msg hov =>
      split
      · cases j with
        | zero =>
          intro h
          simp only [List.get?_cons_zero, Option.some.injEq] at h
          refine ⟨s, by simp, ?_⟩
          rw [← h]
          simp only [Nat.add_zero]
          rw [hov]
          simp
        | succ j =>
          intro h
          simp at h
      · cases j with
        | zero =>
          intro h
          simp only [List.get?_cons_zero, Option.some.injEq] at h
          refine ⟨s, by simp, ?_⟩
          rw [← h]
          simp only [Nat.add_zero]
          rw [hov]
          simp
        | succ j =>
          intro h
          simp only [List.get?_cons_succ] at h
          obtain ⟨t, ht, hstep, h2, h3, h4, hdur, hm⟩ := ih (i + 1) j e h
          refine ⟨t, by simpa using ht, by omega, h2, h3, h4, ?_, ?_⟩
          · rw [show i + (j + 1) = i + 1 + j from by omega]
            exact hdur
          · rw [show i + (j + 1) = i + 1 + j from by omega]
            exact hm

end ExecutorAgent

/-- C2: `execute` iterates the steps in order, recording one
`{step, tool, args, success, result|error, durationMs}` entry per
attempted step (`step` being the 1-based index); with `stop_on_error`
set, a failed entry is the last recorded one, so no later step is
attempted; and the returned object satisfies `totalSteps` = number of
input steps, `completedSteps` = number of successful entries, and
`allSuccess = true` iff no attempted step failed (with all steps
attempted whenever none failed). -/
theorem executor_execute_contract (outcome : Nat → ExecutorAgent.Step → Except String JsValue)
    (dur : Nat → Nat) (totalDur : Nat) (steps : List ExecutorAgent.Step) (stopOnError : Bool) :
    (ExecutorAgent.execute outcome dur totalDur steps stopOnError).totalSteps = steps.length
    ∧ (ExecutorAgent.execute outcome dur totalDur steps stopOnError).completedSteps
        = ((ExecutorAgent.execute outcome dur totalDur steps stopOnError).results.filter
            (fun r => r.success)).length
    ∧ ((ExecutorAgent.execute outcome dur totalDur steps stopOnError).allSuccess = true
        ↔ ∀ e ∈ (ExecutorAgent.execute outcome dur totalDur steps stopOnError).results,
            e.success = true)
    ∧ (ExecutorAgent.execute outcome dur totalDur steps stopOnError).results.length
        ≤ steps.length
    ∧ (∀ j e,
        (ExecutorAgent.execute outcome dur totalDur steps stopOnError).results.get? j = some e →
        ∃ s, steps.get? j = some s
          ∧ e.step = j + 1
          ∧ e.tool = s.tool ∧ e.args = s.args ∧ e.description = s.description
          ∧ e.durationMs = dur j
          ∧ (match outcome j s with
             | .ok v => e.success = true ∧ e.result = some v ∧ e.error = none
             | .error msg => e.success = false ∧ e.result = none ∧ e.error = some msg))
    ∧ (stopOnError = true →
        ∀ j e,
          (ExecutorAgent.execute outcome dur totalDur steps stopOnError).results.get? j = some e →
          e.success = false →
          j + 1 = (ExecutorAgent.execute outcome dur totalDur steps stopOnError).results.length)
    ∧ ((∀ e ∈ (ExecutorAgent.execute outcome dur totalDur steps stopOnError).results,
          e.success = true) →
        (ExecutorAgent.execute outcome dur totalDur steps stopOnError).results.length
          = steps.length) := by
  refine ⟨rfl, rfl, ?_, ?_, ?_, ?_, ?_⟩
  · exact ExecutorAgent.executeSteps_allSuccess outcome dur stopOnError steps 0
  · exact ExecutorAgent.executeSteps_length_le outcome dur stopOnError steps 0
  · intro j e h
    have hg := ExecutorAgent.executeSteps_get outcome dur stopOnError steps 0 j e h
    simpa using hg
  · intro hb j e h hf
    subst hb
    exact ExecutorAgent.executeSteps_stop_last outcome dur steps 0 j e h hf
  · exact ExecutorAgent.executeSteps_all_success_length outcome dur stopOnError steps 0

/-- Concrete step-outcome oracle for the C2 witness: the first step
succeeds, every later one fails with an unknown-tool error. -/
def executorExampleOutcome : Nat → ExecutorAgent.Step → Except String JsValue :=
  fun i _ => if i == 0 then .ok (.str "ok") else .error "Unknown MCP tool: drone.fly"

/-- Concrete steps for the C2 witness. -/
def executorExampleSteps : List ExecutorAgent.Step :=
  [{ tool := .str "drone.take_off", args := .obj [("altitude", .num 1)],
     description := .str "up" },
   { tool := .str "drone.fly", args := .obj [], description := .str "fly" }]

/-- C2 witness: on two concrete steps whose second invocation fails
under `stopOnError`, the failed entry (index 1) is the last recorded
one and the result reports two total steps. -/
theorem executor_execute_contract_witness :
    (ExecutorAgent.execute executorExampleOutcome (fun _ => 5) 12
      executorExampleSteps true).results.length = 2
    ∧ (ExecutorAgent.execute executorExampleOutcome (fun _ => 5) 12
        executorExampleSteps true).totalSteps = 2 := by
  have h := executor_execute_contract executorExampleOutcome (fun _ => 5) 12
    executorExampleSteps true
  have hget : (ExecutorAgent.execute executorExampleOutcome (fun _ => 5) 12
      executorExampleSteps true).results.get? 1
      = some { step := 2, tool := .str "drone.fly", args := .obj [],
               description := .str "fly", success := false, result := none,
               error := some "Unknown MCP tool: drone.fly", durationMs := 5 } := rfl
  have h2 := h.2.2.2.2.2.1 rfl 1 _ hget rfl
  exact ⟨h2.symm, h.1⟩

/-! ## Retriever (src/agents/rag/RagAgent.js) -/

namespace RagAgent

/-- A retrieval hit as returned by the similarity store
(`{chunkText, score, …}`; fields irrelevant to retrieval order are
omitted). -/
structure Hit where
  chunkText : String
  score : ℚ
deriving Repr, DecidableEq

/-- Stable insertion into a score-descending list: the new element is
placed before the first element whose score is ≤ its own, i.e. before
any tie already present (the new element originates earlier in the
input). -/
def insertDesc (h : Hit) : List Hit → List Hit
  | [] => [h]
  | x :: xs => if x.score ≤ h.score then h :: x :: xs else x :: insertDesc h xs

/-- The stable score-descending sort performed by
`processed.sort((a, b) => b.score - a.score)` (ES2019 guarantees
`Array.prototype.sort` is stable), realised as insertion sort. -/
def sortByScoreDesc : List Hit → List Hit
  | [] => []
  | x :: xs => insertDesc x (sortByScoreDesc xs)

/-- `RagAgent._postProcess(results, {topK, threshold})`: filter hits
below the threshold, sort by score descending (stably), truncate to
`topK`. -/
def postProcess (results : List Hit) (topK : Nat) (threshold : ℚ) : List Hit :=
  (sortByScoreDesc (results.filter (fun r => threshold ≤ r.score))).take topK

/-- The object returned by `retrieve` (query, filters and duration
bookkeeping omitted). -/
structure RetrieveResult where
  hits : List Hit
  totalFound : Nat
deriving Repr

/-- `RagAgent.retrieve(query, {topK, threshold})`, with the embedding
call and the Supabase similarity RPC abstracted into `search`: the
store is asked for `topK + 3` candidates at the given threshold, and
the raw results are post-processed by `postProcess`. -/
def retrieve (search : Nat → ℚ → List Hit) (topK : Nat) (threshold : ℚ) : RetrieveResult :=
  { hits := postProcess (search (topK + 3) threshold) topK threshold
    totalFound := (search (topK + 3) threshold).length }

/-- Insertion produces a permutation of consing. -/
theorem insertDesc_perm (h : Hit) : ∀ l : List Hit, List.Perm (insertDesc h l) (h :: l) := by
  intro l
  induction l with
  | nil => simp [insertDesc]
  | cons x xs ih =>
    simp only [insertDesc]
    split
    · exact List.Perm.refl _
    · exact List.Perm.trans (List.Perm.cons x ih) (List.Perm.swap h x xs)

/-- The sort permutes its input. -/
theorem sortByScoreDesc_perm : ∀ l : List Hit, List.Perm (sortByScoreDesc l) l := by
  intro l
  induction l with
  | nil => exact List.Perm.refl _
  | cons x xs ih =>
    simp only [sortByScoreDesc]
    exact List.Perm.trans (insertDesc_perm x (sortByScoreDesc xs)) (List.Perm.cons x ih)

/-- Insertion preserves score-descending sortedness. -/
theorem insertDesc_pairwise {h : Hit} {l : List Hit}
    (hl : l.Pairwise (fun a b => b.score ≤ a.score)) :
    (insertDesc h l).Pairwise (fun a b => b.score ≤ a.score) := by
  induction l with
  | nil => simp [insertDesc]
  | cons x xs ih =>
    rw [List.pairwise_cons] at hl
    simp only [insertDesc]
    split
    · next hxh =>
      rw [List.pairwise_cons]
      refine ⟨?_, List.pairwise_cons.mpr hl⟩
      intro y hy
      rcases List.mem_cons.mp hy with rfl | hy
      · exact hxh
      · exact le_trans (hl.1 y hy) hxh
    · next hxh =>
      rw [List.pairwise_cons]
      refine ⟨?_, ih hl.2⟩
      intro y hy
      rcases List.mem_cons.mp ((insertDesc_perm h xs).mem_iff.mp hy) with rfl | hy2
      · exact le_of_lt (lt_of_not_le hxh)
      · exact hl.1 y hy2

/-- The sort output is score-descending. -/
theorem sortByScoreDesc_pairwise :
    ∀ l : List Hit, (sortByScoreDesc l).Pairwise (fun a b => b.score ≤ a.score) := by
  intro l
  induction l with
  | nil => simp [sortByScoreDesc]
  | cons x xs ih =>
    simp only [sortByScoreDesc]
    exact insertDesc_pairwise ih

/-- Inserting an element of score `s` prepends it to the `score = s`
fibre: everything it is placed after has a strictly larger score. -/
theorem insertDesc_filter_eq {h : Hit} {s : ℚ} (hs : h.score = s) :
    ∀ l : List Hit,
      (insertDesc h l).filter (fun r => decide (r.score = s))
        = h :: l.filter (fun r => decide (r.score = s)) := by
  intro l
  induction l with
  | nil => simp [insertDesc, hs]
  | cons x xs ih =>
    simp only [insertDesc]
    split
    · next hxh => simp [List.filter_cons, hs]
    · next hxh =>
      have hx : ¬(x.score = s) := by
        intro hcontra
        exact hxh (le_of_eq (hs ▸ hcontra))
      simp [List.filter_cons, hx, ih]

/-- Inserting an element of a different score leaves the `score = s`
fibre untouched. -/
theorem insertDesc_filter_ne {h : Hit} {s : ℚ} (hs : ¬(h.score = s)) :
    ∀ l : List Hit,
      (insertDesc h l).filter (fun r => decide (r.score = s))
        = l.filter (fun r => decide (r.score = s)) := by
  intro l
  induction l with
  | nil => simp [insertDesc, hs]
  | cons x xs ih =>
    simp only [insertDesc]
    split
    · next hxh => simp [List.filter_cons, hs]
    · next hxh => simp [List.filter_cons, ih]

/-- Stability: the sort preserves, for every score value, the relative
input order of the hits carrying that score. -/
theorem sortByScoreDesc_filter (s : ℚ) :
    ∀ l : List Hit,
      (sortByScoreDesc l).filter (fun r => decide (r.score = s))
        = l.filter (fun r => decide (r.score = s)) := by
  intro l
  induction l with
  | nil => rfl
  | cons x xs ih =>
    simp only [sortByScoreDesc]
    by_cases hx : x.score = s
    · rw [insertDesc_filter_eq hx, ih, List.filter_cons]
      simp [hx]
    · rw [insertDesc_filter_ne hx, ih, List.filter_cons]
      simp [hx]

end RagAgent

/-- C8: `retrieve` requests `topK + 3` candidates from the store and
returns exactly the raw hits with score ≥ threshold, stably sorted by
score descending (ties keep the store's order) and truncated to at most
`topK` entries; consequently every returned hit meets the threshold and
the hit count is ≤ `topK`. -/
theorem rag_retrieve_pipeline (search : Nat → ℚ → List RagAgent.Hit)
    (topK : Nat) (threshold : ℚ) :
    (RagAgent.retrieve search topK threshold).hits
      = (RagAgent.sortByScoreDesc
          ((search (topK + 3) threshold).filter (fun r => threshold ≤ r.score))).take topK
    ∧ (∀ h ∈ (RagAgent.retrieve search topK threshold).hits, threshold ≤ h.score)
    ∧ (RagAgent.retrieve search topK threshold).hits.length ≤ topK
    ∧ (RagAgent.retrieve search topK threshold).hits.Pairwise (fun a b => b.score ≤ a.score)
    ∧ List.Perm
        (RagAgent.sortByScoreDesc
          ((search (topK + 3) threshold).filter (fun r => threshold ≤ r.score)))
        ((search (topK + 3) threshold).filter (fun r => threshold ≤ r.score))
    ∧ (∀ s : ℚ,
        (RagAgent.sortByScoreDesc
            ((search (topK + 3) threshold).filter (fun r => threshold ≤ r.score))).filter
            (fun r => decide (r.score = s))
          = ((search (topK + 3) threshold).filter (fun r => threshold ≤ r.score)).filter
              (fun r => decide (r.score = s))) := by
  refine ⟨rfl, ?_, ?_, ?_, ?_, ?_⟩
  · intro h hm
    have hm2 : h ∈ RagAgent.sortByScoreDesc
        ((search (topK + 3) threshold).filter (fun r => threshold ≤ r.score)) :=
      List.mem_of_mem_take hm
    have hm3 : h ∈ (search (topK + 3) threshold).filter (fun r => threshold ≤ r.score) :=
      (RagAgent.sortByScoreDesc_perm _).mem_iff.mp hm2
    simpa using (List.mem_filter.mp hm3).2
  · exact List.length_take_le topK _
  · exact List.Pairwise.sublist (List.take_sublist _ _) (RagAgent.sortByScoreDesc_pairwise _)
  · exact RagAgent.sortByScoreDesc_perm _
  · intro s
    exact RagAgent.sortByScoreDesc_filter s _

/-- Concrete store oracle for the C8 witness: four hits, two of them
tied at score 3 with `a` inserted before `c`. -/
def ragExampleSearch : Nat → ℚ → List RagAgent.Hit :=
  fun _ _ => [⟨"a", 3⟩, ⟨"b", 9⟩, ⟨"c", 3⟩, ⟨"d", 1⟩]

/-- C8 witness: at `topK = 3`, `threshold = 2` the pipeline drops the
below-threshold hit, sorts descending keeping the `a`-before-`c` tie
order, and every returned hit (e.g. `a`) meets the threshold. -/
theorem rag_retrieve_pipeline_witness :
    (RagAgent.retrieve ragExampleSearch 3 2).hits
      = [⟨"b", 9⟩, ⟨"a", 3⟩, ⟨"c", 3⟩]
    ∧ (2 : ℚ) ≤ (⟨"a", 3⟩ : RagAgent.Hit).score :=
  ⟨by decide,
    (rag_retrieve_pipeline ragExampleSearch 3 2).2.1 ⟨"a", 3⟩ (by decide)⟩

/-! ## Orchestrator (OrchestratorAgent: ReAct loop, sessions)

The external agents are reached through `submitTask`; their outcomes
per loop iteration are oracle functions.  `Except.error` marks the
places where the corresponding `await` throws (network failure /
timeout), which the source handles with the`try`/`catch` structure
translated below. -/

namespace OrchestratorAgent

/-- `REACT_CONFIG.maxIterations` (also the default of
`config.maxReactIterations`). -/
def maxIterationsDefault : Nat := 3

/-- `REACT_CONFIG.minConfidenceToStop = 0.8`. -/
def minConfidenceToStop : ℚ := 4/5

/-- `REACT_CONFIG.maxRagRetries = 2` (the loop reads this constant
directly, not the per-instance config). -/
def maxRagRetries : Nat := 2

/-- One session-history entry (`{role, content, timestamp}`; the
timestamp is wall-clock bookkeeping outside the model). -/
structure HistoryEntry where
  role : String
  content : String
deriving Repr, DecidableEq

/-- The plan object deserialized from the Planner's Task Result
output, as the loop reads it. -/
structure OPlan where
  reasoning : String
  needsClarification : Bool
  clarificationQuestion : Option String
  missingLocations : List String
  steps : List JsValue
deriving Repr

/-- The reflection object deserialized from the Planner's Task Result
output, as the loop reads it. -/
structure OReflection where
  goalAchieved : Bool
  confidence : ℚ
  nextSteps : List JsValue
  summary : String
deriving Repr

/-- Outcome of one `reflect` call as the loop distinguishes them:
the submission threw, the Task Result came back with
`success = false`, or a reflection was produced. -/
inductive ReflectCase where
  | threw (message : String)
  | failedResult (error : String)
  | ok (r : OReflection)

/-- `this.config` of the Orchestrator. -/
structure ChatConfig where
  ragEnabled : Bool
  maxHistoryLength : Nat
  reactEnabled : Bool
  maxReactIterations : Nat

/-- The oracle environment of one `chat` request: per-iteration
outcomes of the A2A calls (`.error` = the call threw, or — for `plan` —
the Task Result was unsuccessful, which `chat` turns into a throw). -/
structure ChatEnv where
  config : ChatConfig
  ragResult : Except String (List RagAgent.Hit)
  planOutcome : Nat → Except String OPlan
  retryOutcome : Nat → Except String (List RagAgent.Hit)
  execOutcome : Nat → Except String Bool
  reflectOutcome : Nat → ReflectCase

/-- How one `chat` request ends. -/
inductive LoopResult where
  | errored (message : String)
  | clarified (question : Option String) (missingLocations : List String)
      (ragRetries : Nat) (iterations : Nat)
  | finished (goalAchieved : Bool) (iterations : Nat) (ragRetries : Nat)

/-- Merging retry hits into the RAG list with `chunkText`
deduplication (the `existingChunks` set walk). -/
def mergeHits : List RagAgent.Hit → List RagAgent.Hit → List RagAgent.Hit
  | acc, [] => acc
  | acc, h :: rest =>
      if (acc.map (fun x => x.chunkText)).contains h.chunkText then mergeHits acc rest
      else mergeHits (acc ++ [h]) rest

/-- The ReAct `while` loop.  `fuel` is `maxReactIterations - iteration`
(the loop guard `iteration < maxIterations` re-checked each pass);
`iteration` is incremented at the top of every pass exactly as in the
source, so every emitted `iterations` value is the final value of the
`iteration` variable. -/
def reactLoop (env : ChatEnv) :
    Nat → Nat → Nat → List RagAgent.Hit → Bool → LoopResult
  | 0, iteration, ragRetryCount, _, goalAchieved =>
      .finished goalAchieved iteration ragRetryCount
  | fuel + 1, iteration, ragRetryCount, ragHits, goalAchieved =>
    if goalAchieved then .finished goalAchieved iteration ragRetryCount
    else
      match env.planOutcome (iteration + 1) with
      | .error e => .errored e
      | .ok plan =>
        if plan.needsClarification then
          if plan.missingLocations ≠ [] ∧ ragRetryCount < maxRagRetries then
            match env.retryOutcome (ragRetryCount + 1) with
            | .ok retryHits =>
                if !retryHits.isEmpty then
                  reactLoop env fuel (iteration + 1) (ragRetryCount + 1)
                    (mergeHits ragHits retryHits) false
                else
                  .clarified plan.clarificationQuestion plan.missingLocations
                    (ragRetryCount + 1) (iteration + 1)
            | .error _ =>
                .clarified plan.clarificationQuestion plan.missingLocations
                  (ragRetryCount + 1) (iteration + 1)
          else
            .clarified plan.clarificationQuestion plan.missingLocations
              ragRetryCount (iteration + 1)
        else
          if plan.steps.isEmpty then
            .finished true (iteration + 1) ragRetryCount
          else
            match env.execOutcome (iteration + 1) with
            | .error e => .errored e
            | .ok _ =>
                if env.config.reactEnabled then
                  match env.reflectOutcome (iteration + 1) with
                  | .ok r =>
                      if r.goalAchieved ∧ minConfidenceToStop ≤ r.confidence then
                        .finished true (iteration + 1) ragRetryCount
                      else if !r.nextSteps.isEmpty then
                        reactLoop env fuel (iteration + 1) ragRetryCount ragHits false
                      else
                        .finished true (iteration + 1) ragRetryCount
                  | .failedResult _ => .finished true (iteration + 1) ragRetryCount
                  | .threw _ => .finished true (iteration + 1) ragRetryCount
                else
                  .finished true (iteration + 1) ragRetryCount

/-- `_trimHistory`: evict the oldest entries when the history exceeds
`maxHistoryLength * 2` (`slice(-maxHistoryLength * 2)`; note that for
`maxHistoryLength = 0` the JS `slice(-0)` returns the whole array). -/
def trimHistory (maxHistoryLength : Nat) (history : List HistoryEntry) : List HistoryEntry :=
  if history.length > maxHistoryLength * 2 then
    if maxHistoryLength * 2 = 0 then history
    else history.drop (history.length - maxHistoryLength * 2)
  else history

/-- A `chat` response, reduced to the fields the verified claims are
about.  The error response carries no `reactIterations` field in the
source. -/
inductive ChatResponse where
  | errorResp (answer : String) (error : String)
  | clarifyResp (answer : String) (missingLocations : List String)
      (ragRetries : Nat) (reactIterations : Nat)
  | doneResp (answer : String) (goalAchieved : Bool) (reactIterations : Nat)

/-- `clarificationQuestion || '请提供更多信息'`. -/
def clarifyAnswer (question : Option String) : String :=
  match question with
  | some q => if q = "" then "请提供更多信息" else q
  | none => "请提供更多信息"

/-- The answer text of the normal completion path
(`_generateAnswerWithReflection`); its assembly from plan reasoning,
execution summary and reflection summary is not modelled — no claim
depends on it, only on the fact that one assistant turn is appended. -/
def generatedAnswer : String := "任务已处理。"

/-- The RAG preparation phase as the loop sees it: the smart-retrieval
hits, or `[]` when RAG is disabled or the call threw (its `catch` logs
and continues without context). -/
def initialRagHits (env : ChatEnv) : List RagAgent.Hit :=
  if env.config.ragEnabled then
    match env.ragResult with
    | .ok hits => hits
    | .error _ => []
  else []

/-- `OrchestratorAgent.chat`: append the user turn, run preparation and
the ReAct loop, append the assistant turn.  Only the normal completion
path calls `_trimHistory`; the clarification and error paths append and
return directly.  Returns the response together with the session
history after the request. -/
def chat (env : ChatEnv) (userMessage : String) (history : List HistoryEntry) :
    ChatResponse × List HistoryEntry :=
  let h1 := history ++ [{ role := "user", content := userMessage }]
  match reactLoop env env.config.maxReactIterations 0 0 (initialRagHits env) false with
  | .errored msg =>
      (.errorResp ("抱歉，处理您的请求时出错：" ++ msg) msg,
       h1 ++ [{ role := "assistant", content := "抱歉，处理您的请求时出错：" ++ msg }])
  | .clarified question missing ragRetries iterations =>
      (.clarifyResp (clarifyAnswer question) missing ragRetries iterations,
       h1 ++ [{ role := "assistant", content := clarifyAnswer question }])
  | .finished goal iterations _ =>
      (.doneResp generatedAnswer goal iterations,
       trimHistory env.config.maxHistoryLength
         (h1 ++ [{ role := "assistant", content := generatedAnswer }]))

/-- The `iterations` count a loop result reports, when it reports one. -/
def loopIterations : LoopResult → Option Nat
  | .errored _ => none
  | .clarified _ _ _ it => some it
  | .finished _ it _ => some it

/-- The `reactIterations` field of a response, when present. -/
def respIterations : ChatResponse → Option Nat
  | .errorResp _ _ => none
  | .clarifyResp _ _ _ it => some it
  | .doneResp _ _ it => some it

/-- Loop invariant: with `iteration + fuel ≤ max` at entry, every
reported iteration count stays ≤ max. -/
theorem reactLoop_iterations_le (env : ChatEnv) :
    ∀ (fuel iteration ragRetryCount : Nat) (ragHits : List RagAgent.Hit) (goal : Bool),
      iteration + fuel ≤ env.config.maxReactIterations →
      ∀ it, loopIterations (reactLoop env fuel iteration ragRetryCount ragHits goal) = some it →
        it ≤ env.config.maxReactIterations := by
  intro fuel
  induction fuel with
  | zero =>
    intro iteration r hs g hle it h
    simp only [reactLoop, loopIterations, Option.some.injEq] at h
    omega
  | succ fuel ih =>
    intro iteration r hs g hle it h
    simp only [reactLoop] at h
    revert h
    split
    · intro h
      simp only [loopIterations, Option.some.injEq] at h
      omega
    · split
      · intro h
        simp [loopIterations] at h
      · split
        · split
          · split
            · split
              · intro h
                exact ih (iteration + 1) (r + 1) _ false (by omega) it h
              · intro h
                simp only [loopIterations, Option.some.injEq] at h
                omega
            · intro h
              simp only [loopIterations, Option.some.injEq] at h
              omega
          · intro h
            simp only [loopIterations, Option.some.injEq] at h
            omega
        · split
          · intro h
            simp only [loopIterations, Option.some.injEq] at h
            omega
          · split
            · intro h
              simp [loopIterations] at h
            · split
              · split
                · split
                  · intro h
                    simp only [loopIterations, Option.some.injEq] at h
                    omega
                  · split
                    · intro h
                      exact ih (iteration + 1) r hs false (by omega) it h
                    · intro h
                      simp only [loopIterations, Option.some.injEq] at h
                      omega
                · intro h
                  simp only [loopIterations, Option.some.injEq] at h
                  omega
                · intro h
                  simp only [loopIterations, Option.some.injEq] at h
                  omega
              · intro h
                simp only [loopIterations, Option.some.injEq] at h
                omega

end OrchestratorAgent

/-- C4: the ReAct loop runs at most `maxReactIterations` passes, so the
`reactIterations` field of every response that carries one (normal
completions and clarification responses; error responses carry none in
the source) is ≤ `maxReactIterations`. -/
theorem orchestrator_react_iterations_bounded (env : OrchestratorAgent.ChatEnv)
    (userMessage : String) (history : List OrchestratorAgent.HistoryEntry) :
    ∀ it, OrchestratorAgent.respIterations (OrchestratorAgent.chat env userMessage history).1
        = some it →
      it ≤ env.config.maxReactIterations := by
  intro it h
  unfold OrchestratorAgent.chat at h
  simp only at h
  have hb := OrchestratorAgent.reactLoop_iterations_le env env.config.maxReactIterations 0 0
    (OrchestratorAgent.initialRagHits env) false (by omega) it
  cases hres : OrchestratorAgent.reactLoop env env.config.maxReactIterations 0 0
      (OrchestratorAgent.initialRagHits env) false with
  | errored msg =>
    rw [hres] at h
    simp [OrchestratorAgent.respIterations] at h
  | clarified q m r its =>
    rw [hres] at h hb
    simp only [OrchestratorAgent.respIterations, Option.some.injEq] at h
    simp only [OrchestratorAgent.loopIterations, Option.some.injEq] at hb
    exact hb h
  | finished g its r =>
    rw [hres] at h hb
    simp only [OrchestratorAgent.respIterations, Option.some.injEq] at h
    simp only [OrchestratorAgent.loopIterations, Option.some.injEq] at hb
    exact hb h

/-- Concrete environment for the C4 witness: the single plan call
returns a plan with no steps, so the loop finishes after one pass. -/
def chatEnvTrivial : OrchestratorAgent.ChatEnv :=
  { config :=
      { ragEnabled := false, maxHistoryLength := 10, reactEnabled := true
        maxReactIterations := 3 }
    ragResult := .ok []
    planOutcome := fun _ =>
      .ok { reasoning := "nothing to do", needsClarification := false
            clarificationQuestion := none, missingLocations := [], steps := [] }
    retryOutcome := fun _ => .ok []
    execOutcome := fun _ => .ok true
    reflectOutcome := fun _ => .threw "unused" }

/-- C4 witness: the trivial request finishes with
`reactIterations = 1 ≤ 3`. -/
theorem orchestrator_react_iterations_bounded_witness :
    OrchestratorAgent.respIterations
        (OrchestratorAgent.chat chatEnvTrivial "起飞" []).1 = some 1
    ∧ 1 ≤ chatEnvTrivial.config.maxReactIterations :=
  ⟨rfl, orchestrator_react_iterations_bounded chatEnvTrivial "起飞" [] 1 rfl⟩

/-- Concrete environment for the C7 failing input: `maxHistoryLength`
is 1 and the only plan call asks for clarification with no missing
locations, so `chat` returns through the clarification path. -/
def chatEnvClarify : OrchestratorAgent.ChatEnv :=
  { config :=
      { ragEnabled := false, maxHistoryLength := 1, reactEnabled := true
        maxReactIterations := 3 }
    ragResult := .ok []
    planOutcome := fun _ =>
      .ok { reasoning := "", needsClarification := true
            clarificationQuestion := some "请问去哪个点位？", missingLocations := []
            steps := [] }
    retryOutcome := fun _ => .ok []
    execOutcome := fun _ => .ok true
    reflectOutcome := fun _ => .threw "unused" }

/-- The session history of the C7 failing input: already at the bound
`2 × maxHistoryLength = 2`. -/
def historyAtBound : List OrchestratorAgent.HistoryEntry :=
  [{ role := "user", content := "你好" }, { role := "assistant", content := "你好！" }]

/-- C7 (code bug): a request that ends in a clarification response
appends the user and assistant turns without calling `_trimHistory`,
so a session already at the bound `2 × maxHistoryLength = 2` grows to
4 entries — the code violates the documented history-length invariant
on the clarification (and error) early-return paths. -/
theorem session_history_clarification_overflow :
    ((OrchestratorAgent.chat chatEnvClarify "去2号点" historyAtBound).2).length = 4
    ∧ ¬(((OrchestratorAgent.chat chatEnvClarify "去2号点" historyAtBound).2).length
        ≤ 2 * chatEnvClarify.config.maxHistoryLength) :=
  ⟨rfl, by decide⟩
